import Mathlib

/-!
Verification of the GoURL extraction pipeline (src/main.go).

Strings are embedded as `List Char` (`Str`); each Go function of the
pipeline is translated to a Lean function of the same name.  The two
concurrent matcher goroutines deliver their result slices over an
unbuffered channel, so the order in which the coordinator appends them
is the channel-arrival order; it is made explicit as an `arrival`
parameter (a permutation of the matcher-registration positions).
-/

set_option maxRecDepth 4096

/-- Strings of the Go program, embedded as lists of characters. -/
abbrev Str := List Char

/-- Conversion from Lean string literals, used for concrete inputs. -/
def str (s : String) : Str := s.toList

/-- Model of Go `strings.Split(s, sep)` for a one-character separator:
splits at every occurrence of the separator, keeping empty fields. -/
def splitOnChar (sep : Char) : Str → List Str
  | [] => [[]]
  | c :: rest =>
    let r := splitOnChar sep rest
    if c = sep then [] :: r
    else (c :: r.headD []) :: r.tail

/-- Model of Go `strings.TrimLeft(s, cutset)` for a one-character cutset. -/
def trimLeftChar (cut : Char) (s : Str) : Str := s.dropWhile (fun c => c = cut)

/-- Model of Go `strings.TrimRight(s, cutset)` for a one-character cutset. -/
def trimRightChar (cut : Char) (s : Str) : Str :=
  (s.reverse.dropWhile (fun c => c = cut)).reverse

/-- Model of Go `strings.Trim(s, cutset)` for a one-character cutset. -/
def trimChar (cut : Char) (s : Str) : Str := trimRightChar cut (trimLeftChar cut s)

/-! ### Pattern matchers

The program builds its matchers with `newRegexMatcherWithPrefix`, around
Go's `regexp` engine.  The engine itself is standard-library code, not
part of this repository, so its application to the repository's two
regex constants is modelled from the spec below. -/

/-- Character class `[a-zA-Z0-9.]` of the `urlRegex` constant. -/
def isUrlBodyChar1 (c : Char) : Bool := c.isAlpha || c.isDigit || c = '.'

/-- Character class `[:;a-zA-Z0-9./+@$&%?$\#=_~-]` of the `urlRegex` constant. -/
def isUrlBodyChar2 (c : Char) : Bool :=
  isUrlBodyChar1 c || c = ':' || c = ';' || c = '/' || c = '+' || c = '@' ||
    c = '$' || c = '&' || c = '%' || c = '?' || c = '#' || c = '=' ||
    c = '_' || c = '~' || c = '-'

/-- Heads of the `urlRegex` alternation
`((http|https|gopher|gemini|ftp|ftps|git)://|www\.)`, in alternation
order.  At any position at most one of them is present, so the order is
immaterial for the match result. -/
def schemeHeads : List Str :=
  [str "http://", str "https://", str "gopher://", str "gemini://",
   str "ftp://", str "ftps://", str "git://", str "www."]

/-- Scheme head at the current position, with the remaining text. -/
def matchHead (s : Str) : Option (Str × Str) :=
  schemeHeads.findSome? fun h =>
    if h.isPrefixOf s then some (h, s.drop h.length) else none

/-- Modelled from the spec: the match that Go `regexp` produces for the
repository's `urlRegex` at the current position, if any.  A match is a
scheme head followed by the greedy run of the first body class and then
the greedy run of the second body class (the second class contains the
first, so greedy matching never needs to backtrack). -/
def urlMatchAt (s : Str) : Option (Str × Str) :=
  match matchHead s with
  | none => none
  | some (head, rest) =>
    let b1 := rest.takeWhile isUrlBodyChar1
    let r1 := rest.dropWhile isUrlBodyChar1
    let b2 := r1.takeWhile isUrlBodyChar2
    let r2 := r1.dropWhile isUrlBodyChar2
    some (head ++ b1 ++ b2, r2)

/-- Leftmost-first scan for `urlFindAll`; the fuel bounds the number of
positions visited and never runs out, since every step consumes at
least one character. -/
def urlGo : Nat → Str → List Str
  | 0, _ => []
  | _ + 1, [] => []
  | fuel + 1, c :: rest =>
    match urlMatchAt (c :: rest) with
    | some (m, r) => m :: urlGo fuel r
    | none => urlGo fuel rest

/-- Modelled from the spec: Go `re.FindAllString(line, -1)` for the
repository's `urlRegex` constant (standard-library engine, not in
src/): the ordered list of non-overlapping leftmost matches. -/
def urlFindAll (s : Str) : List Str := urlGo s.length s

/-- Word characters of the regex `\b` boundary: `[0-9A-Za-z_]`. -/
def isWordChar (c : Char) : Bool := c.isAlpha || c.isDigit || c = '_'

/-- Character class `[A-Za-z0-9._%+-]` of the `emailRegex` constant. -/
def isEmailLocalChar (c : Char) : Bool :=
  c.isAlpha || c.isDigit || c = '.' || c = '_' || c = '%' || c = '+' || c = '-'

/-- Character class `[A-Za-z0-9.-]` of the `emailRegex` constant. -/
def isEmailDomainChar (c : Char) : Bool :=
  c.isAlpha || c.isDigit || c = '.' || c = '-'

/-- Top-level-domain part `[A-Za-z]{2,}\b` of the `emailRegex`: the
greedy run of letters, of length at least two, followed by a word
boundary (shrinking the greedy run can never repair a failed boundary,
so no backtracking is needed here). -/
def emailTldAt (s : Str) : Option (Str × Str) :=
  let b := s.takeWhile (fun c => c.isAlpha)
  let r := s.dropWhile (fun c => c.isAlpha)
  let boundaryOk : Bool := match r with | [] => true | c :: _ => !isWordChar c
  if 2 ≤ b.length ∧ boundaryOk = true then some (b, r) else none

/-- Backtracking over the greedy `[A-Za-z0-9.-]+` run: the longest
prefix that is followed by a literal dot and a valid top-level domain
wins, as in leftmost-first matching. -/
def tryDomainSplit : Nat → Str → Str → Option (Str × Str)
  | 0, _, _ => none
  | k + 1, run, rest =>
    let a := run.take (k + 1)
    match run.drop (k + 1) ++ rest with
    | '.' :: r2 =>
      match emailTldAt r2 with
      | some (b, r) => some ((a ++ '.' :: b), r)
      | none => tryDomainSplit k run rest
    | _ => tryDomainSplit k run rest

/-- Domain part `[A-Za-z0-9.-]+\.[A-Za-z]{2,}\b` of the `emailRegex`,
starting right after the `@`. -/
def emailDomainAt (s : Str) : Option (Str × Str) :=
  let run := s.takeWhile isEmailDomainChar
  let rest := s.dropWhile isEmailDomainChar
  tryDomainSplit run.length run rest

/-- Modelled from the spec: the match that Go `regexp` produces for the
repository's `emailRegex` at the current position, if any.
`prevWord` is the wordness of the preceding character (false at the
start of the line), used for the leading `\b`. -/
def emailMatchAt (prevWord : Bool) (s : Str) : Option (Str × Str) :=
  match s with
  | [] => none
  | c :: _ =>
    if prevWord = isWordChar c then none
    else
      let lo := s.takeWhile isEmailLocalChar
      let r1 := s.dropWhile isEmailLocalChar
      if lo = [] then none
      else
        match r1 with
        | '@' :: r2 =>
          match emailDomainAt r2 with
          | some (dom, rest) => some (lo ++ '@' :: dom, rest)
          | none => none
        | _ => none

/-- Leftmost-first scan for `emailFindAll`, tracking the wordness of
the previous character for the `\b` boundaries. -/
def emailGo : Nat → Bool → Str → List Str
  | 0, _, _ => []
  | _ + 1, _, [] => []
  | fuel + 1, prevWord, c :: rest =>
    match emailMatchAt prevWord (c :: rest) with
    | some (m, r) => m :: emailGo fuel (isWordChar (m.getLastD ' ')) r
    | none => emailGo fuel (isWordChar c) rest

/-- Modelled from the spec: Go `re.FindAllString(line, -1)` for the
repository's `emailRegex` constant (standard-library engine, not in
src/): the ordered list of non-overlapping leftmost matches. -/
def emailFindAll (s : Str) : List Str := emailGo s.length false s

/-- Model of `newRegexMatcherWithPrefix(regex, prefix)` from src/main.go:
the returned closure maps every regex match to its first
space-separated field and prepends the prefix when it is non-empty. -/
def matcherPrefixed (findAll : Str → List Str) (pfx : Str) : Str → List Str :=
  fun line =>
    (findAll line).map fun m =>
      let url := (splitOnChar ' ' m).headD []
      if pfx = [] then url else pfx ++ url

/-- The URL matcher registered by `findItems`:
`newRegexMatcherWithPrefix(urlRegex, "")`. -/
def findURLs : Str → List Str := matcherPrefixed urlFindAll []

/-- The email matcher registered by `findItems`:
`newRegexMatcherWithPrefix(emailRegex, "mailto:")`. -/
def findEmails : Str → List Str := matcherPrefixed emailFindAll (str "mailto:")

example : urlFindAll (str "see http://a.com and http://b.com x") =
    [str "http://a.com", str "http://b.com"] := by decide

example : urlFindAll (str "http://a.com http://b.com") =
    [str "http://a.com", str "http://b.com"] := by decide

example : emailFindAll (str "contact me at a@b.com") = [str "a@b.com"] := by decide

example : urlFindAll (str "www.a@b.com") = [str "www.a@b.com"] := by decide

example : emailFindAll (str "www.a@b.com") = [str "www.a@b.com"] := by decide

example : findEmails (str "contact me at a@b.com") = [str "mailto:a@b.com"] := by decide

example : emailFindAll (str "http://x.com a@b.com") = [str "a@b.com"] := by decide

example : urlFindAll (str "http://x.com a@b.com") = [str "http://x.com"] := by decide

/-! ### The extraction coordinator (src/main.go) -/

/-- Model of `uniqueItems`: the `seen` map of the Go loop is the list of
strings already emitted. -/
def uniqueItemsAux (seen : List Str) : List Str → List Str
  | [] => []
  | x :: xs =>
    if x ∈ seen then uniqueItemsAux seen xs
    else x :: uniqueItemsAux (x :: seen) xs

/-- Model of `uniqueItems` from src/main.go: removes duplicates, keeping
the first occurrence of each string. -/
def uniqueItems (input : List Str) : List Str := uniqueItemsAux [] input

/-- Model of the loop body of `addIndex`, carrying the 1-based index. -/
def addIndexAux (i : Nat) : List Str → List Str
  | [] => []
  | item :: rest =>
    (('[' :: Nat.toDigits 10 i) ++ ']' :: ' ' :: item) :: addIndexAux (i + 1) rest

/-- Model of `addIndex` from src/main.go: relabels every item as
`fmt.Sprintf("[%d] %s", i+1, url)`. -/
def addIndex (items : List Str) : List Str := addIndexAux 1 items

/-- Model of `removeIdx` from src/main.go: with indexing enabled, split
on single spaces and return the second field (the first field after the
`[n]` label); otherwise return the string unchanged. -/
def removeIdx (indexFlag : Bool) (s : Str) : Str :=
  if indexFlag = false then s
  else
    let split := splitOnChar ' ' s
    if split.length = 1 then s else split.getD 1 []

/-- Model of the loop of `scanItems`, carrying the accumulated items.
After appending all matches of a line the loop breaks as soon as
`len(items) >= limitFlag`; a line without matches is skipped by
`continue` before that check. -/
def scanItemsAux (limit : Int) (find : Str → List Str) : List Str → List Str → List Str
  | items, [] => items
  | items, line :: rest =>
    if find line = [] then scanItemsAux limit find items rest
    else if limit ≤ ((items ++ find line).length : Int) then items ++ find line
    else scanItemsAux limit find (items ++ find line) rest

/-- Model of `scanItems(data, find)` from src/main.go; the global
`limitFlag` is passed explicitly. -/
def scanItems (limit : Int) (data : List Str) (find : Str → List Str) : List Str :=
  scanItemsAux limit find [] data

/-- Spec-side reference list: every match produced by the matcher on
every buffered line, in line order, with no truncation. -/
def specAllMatches (find : Str → List Str) (data : List Str) : List Str :=
  (data.map find).flatten

/-- Fan-in of the matcher goroutines: the coordinator appends the
per-matcher result slices in the order they arrive on the unbuffered
channel.  `arrival` lists the matcher-registration positions in that
(scheduling-dependent) arrival order. -/
def mergeResults (outputs : List (List Str)) (arrival : List Nat) : List Str :=
  (arrival.map fun i => outputs.getD i []).flatten

/-- The error value `errNoURLFound` of src/main.go. -/
def errNoURLFound : String := "no urls found"

/-- Model of `getURLsFrom` from src/main.go: a `limitFlag` of 0 is
replaced by the number of buffered lines, every finder scans the
buffered data, the result slices are merged in channel-arrival order,
and an empty merged list is reported as the `no urls found` error. -/
def getURLsFrom (limit : Int) (data : List Str) (finders : List (Str → List Str))
    (arrival : List Nat) : Except String (List Str) :=
  let limitEff : Int := if limit = 0 then (data.length : Int) else limit
  let results := mergeResults (finders.map fun f => scanItems limitEff data f) arrival
  if results = [] then Except.error errNoURLFound else Except.ok results

/-! ### Flags, main, and the action dispatcher -/

/-- The flag variables of src/main.go that the pipeline reads.  The
custom regex flag is represented by the compiled `FindAllString`
function of the custom pattern (`none` when the flag is empty). -/
structure Config where
  copyFlag : Bool
  openFlag : Bool
  noUrlsFlag : Bool
  emailFlag : Bool
  indexFlag : Bool
  limitFlag : Int
  menuArgsFlag : Str
  customRegexMatcher : Option (Str → List Str)

/-- The finder list that `main` hands to `getURLsFrom`: the single
custom matcher when a custom regex is supplied (`findWithCustomRegex`),
otherwise the matchers registered by `findItems` — the URL matcher
unless `noUrlsFlag`, then the email matcher if `emailFlag`. -/
def mainFinders (cfg : Config) : List (Str → List Str) :=
  match cfg.customRegexMatcher with
  | some findAll => [matcherPrefixed findAll []]
  | none =>
    (if cfg.noUrlsFlag then [] else [findURLs]) ++
      (if cfg.emailFlag then [findEmails] else [])

/-- The item list of `main` right before `handleItems`: extraction,
then `uniqueItems`, then `addIndex` when `indexFlag` is set. -/
def pipelineItems (cfg : Config) (data : List Str) (arrival : List Nat) :
    Except String (List Str) :=
  match getURLsFrom cfg.limitFlag data (mainFinders cfg) arrival with
  | Except.error e => Except.error e
  | Except.ok items =>
    let items := uniqueItems items
    Except.ok (if cfg.indexFlag then addIndex items else items)

/-- Observable result of a run: the exit path that `main` takes. -/
inductive Outcome where
  | errorExit (msg : String)
  | printedAll (items : List Str)
  | noSelection
  | didCopy (s : Str)
  | didOpen (s : Str)
  | didNothing

/-- Exit status of each outcome: `logErrAndExit` exits 1, every other
path returns from `main` or calls `os.Exit(0)`. -/
def Outcome.exitCode : Outcome → Nat
  | Outcome.errorExit _ => 1
  | _ => 0

/-- Lines written to standard output by each outcome: only the
`outputData` path prints; in particular `didNothing` prints nothing. -/
def Outcome.stdoutLines : Outcome → List Str
  | Outcome.printedAll items => items
  | _ => []

/-- Model of `Menu.show`: the chooser subprocess is an oracle.
`Except.error ()` covers a failed start, a failed read, and a non-zero
exit reported by `cmd.Wait()`; `Except.ok out` is the raw standard
output, which `show` trims of trailing newlines. -/
def menuShow (raw : Except Unit Str) : Except Unit Str :=
  match raw with
  | Except.error e => Except.error e
  | Except.ok out => Except.ok (trimRightChar '\n' out)

/-- Model of `selectURL` from src/main.go: a menu error or an
all-newline output yields the empty selection. -/
def selectURL (raw : Except Unit Str) : Str :=
  match menuShow raw with
  | Except.error _ => []
  | Except.ok output =>
    let selectedStr := trimChar '\n' output
    if selectedStr = [] then [] else selectedStr

/-- Model of `handleURLAction` from src/main.go.  The Go `actions` map
literal writes `copyFlag: copyURL` and then `openFlag: openURL`; with
duplicate keys the later entry wins, so when both flags are true the
key `true` maps to `openURL`, and when both are false the lookup
`actions[true]` misses and the function does nothing at all — there is
no print fallback in this version. -/
def handleURLAction (cfg : Config) (url : Str) : Outcome :=
  if cfg.openFlag then Outcome.didOpen (removeIdx cfg.indexFlag url)
  else if cfg.copyFlag then Outcome.didCopy (removeIdx cfg.indexFlag url)
  else Outcome.didNothing

/-- Model of `handleItems` from src/main.go: with no copy flag, no open
flag and no extra menu arguments the items are printed directly;
otherwise the chooser runs and an empty selection ends the run
quietly. -/
def handleItems (cfg : Config) (raw : Except Unit Str) (items : List Str) : Outcome :=
  if cfg.copyFlag = false ∧ cfg.openFlag = false ∧ cfg.menuArgsFlag = [] then
    Outcome.printedAll items
  else
    let url := selectURL raw
    if url = [] then Outcome.noSelection
    else handleURLAction cfg url

/-- Model of `main` from src/main.go: extract, deduplicate, optionally
index, then dispatch. -/
def gourlMain (cfg : Config) (raw : Except Unit Str) (data : List Str)
    (arrival : List Nat) : Outcome :=
  match pipelineItems cfg data arrival with
  | Except.error e => Outcome.errorExit e
  | Except.ok items => handleItems cfg raw items

example :
    pipelineItems ⟨false, false, false, false, false, 1, [], none⟩
      [str "http://a.com http://b.com"] [0] =
      Except.ok [str "http://a.com", str "http://b.com"] := by rfl

example :
    getURLsFrom 0 [str "http://a.com http://b.com", str "http://c.com"]
      [findURLs] [0] = Except.ok [str "http://a.com", str "http://b.com"] := by
  rfl

example :
    gourlMain ⟨false, false, false, false, false, 0, str "-b", none⟩
      (Except.ok (str "http://a.com")) [str "http://a.com"] [0] =
      Outcome.didNothing := by rfl

example : removeIdx true (str "[2] B C") = str "B" := by decide

example : addIndex [str "A", str "B C"] = [str "[1] A", str "[2] B C"] := by decide

/-! ### Lemmas about `scanItems` -/

theorem scanItemsAux_skip (limit : Int) (find : Str → List Str) (items : List Str)
    (line : Str) (rest : List Str) (h : find line = []) :
    scanItemsAux limit find items (line :: rest) = scanItemsAux limit find items rest := by
  simp only [scanItemsAux]
  rw [if_pos h]

theorem scanItemsAux_break (limit : Int) (find : Str → List Str) (items : List Str)
    (line : Str) (rest : List Str) (h : ¬find line = [])
    (hlim : limit ≤ ((items ++ find line).length : Int)) :
    scanItemsAux limit find items (line :: rest) = items ++ find line := by
  simp only [scanItemsAux]
  rw [if_neg h, if_pos hlim]

theorem scanItemsAux_step (limit : Int) (find : Str → List Str) (items : List Str)
    (line : Str) (rest : List Str) (h : ¬find line = [])
    (hlim : ¬limit ≤ ((items ++ find line).length : Int)) :
    scanItemsAux limit find items (line :: rest) =
      scanItemsAux limit find (items ++ find line) rest := by
  simp only [scanItemsAux]
  rw [if_neg h, if_neg hlim]

theorem specAllMatches_cons (find : Str → List Str) (line : Str) (rest : List Str) :
    specAllMatches find (line :: rest) = find line ++ specAllMatches find rest := by
  simp [specAllMatches]

theorem scanItemsAux_pref (limit : Int) (find : Str → List Str) (data : List Str) :
    ∀ items, scanItemsAux limit find items data <+: items ++ specAllMatches find data := by
  induction data with
  | nil =>
    intro items
    simp [scanItemsAux, specAllMatches]
  | cons line rest ih =>
    intro items
    rw [specAllMatches_cons, ← List.append_assoc]
    by_cases h : find line = []
    · rw [scanItemsAux_skip limit find items line rest h, h, List.append_nil]
      exact ih items
    · by_cases hlim : limit ≤ ((items ++ find line).length : Int)
      · rw [scanItemsAux_break limit find items line rest h hlim]
        exact List.prefix_append _ _
      · rw [scanItemsAux_step limit find items line rest h hlim]
        exact ih (items ++ find line)

theorem scanItemsAux_acc_pref (limit : Int) (find : Str → List Str) (data : List Str) :
    ∀ items, items <+: scanItemsAux limit find items data := by
  induction data with
  | nil =>
    intro items
    simp [scanItemsAux]
  | cons line rest ih =>
    intro items
    by_cases h : find line = []
    · rw [scanItemsAux_skip limit find items line rest h]
      exact ih items
    · by_cases hlim : limit ≤ ((items ++ find line).length : Int)
      · rw [scanItemsAux_break limit find items line rest h hlim]
        exact List.prefix_append _ _
      · rw [scanItemsAux_step limit find items line rest h hlim]
        exact (List.prefix_append _ _).trans (ih (items ++ find line))

theorem scanItemsAux_total_or_limit (limit : Int) (find : Str → List Str) (data : List Str) :
    ∀ items, limit ≤ ((scanItemsAux limit find items data).length : Int) ∨
      scanItemsAux limit find items data = items ++ specAllMatches find data := by
  induction data with
  | nil =>
    intro items
    right
    simp [scanItemsAux, specAllMatches]
  | cons line rest ih =>
    intro items
    by_cases h : find line = []
    · rw [scanItemsAux_skip limit find items line rest h, specAllMatches_cons, h,
        List.nil_append]
      exact ih items
    · by_cases hlim : limit ≤ ((items ++ find line).length : Int)
      · left
        rw [scanItemsAux_break limit find items line rest h hlim]
        exact hlim
      · rw [scanItemsAux_step limit find items line rest h hlim, specAllMatches_cons,
          ← List.append_assoc]
        exact ih (items ++ find line)

theorem scanItemsAux_const (limit : Int) (find : Str → List Str) (data : List Str)
    (hall : ∀ line ∈ data, find line = []) :
    ∀ items, scanItemsAux limit find items data = items := by
  induction data with
  | nil =>
    intro items
    simp [scanItemsAux]
  | cons line rest ih =>
    intro items
    have h : find line = [] := hall line (List.mem_cons_self _ _)
    rw [scanItemsAux_skip limit find items line rest h]
    exact ih (fun l hl => hall l (List.mem_cons_of_mem _ hl)) items

theorem scanItems_nil_iff (limit : Int) (data : List Str) (find : Str → List Str) :
    scanItems limit data find = [] ↔ ∀ line ∈ data, find line = [] := by
  constructor
  · unfold scanItems
    have main : ∀ (d : List Str) (items : List Str), scanItemsAux limit find items d = [] →
        ∀ line ∈ d, find line = [] := by
      intro d
      induction d with
      | nil =>
        intro items _ line hline
        cases hline
      | cons line rest ih =>
        intro items hnil l hl
        by_cases h : find line = []
        · rcases List.mem_cons.mp hl with rfl | hl'
          · exact h
          · rw [scanItemsAux_skip limit find items line rest h] at hnil
            exact ih items hnil l hl'
        · exfalso
          by_cases hlim : limit ≤ ((items ++ find line).length : Int)
          · rw [scanItemsAux_break limit find items line rest h hlim] at hnil
            exact h (List.append_eq_nil.mp hnil).2
          · rw [scanItemsAux_step limit find items line rest h hlim] at hnil
            have hpref := scanItemsAux_acc_pref limit find rest (items ++ find line)
            rw [hnil] at hpref
            exact h (List.append_eq_nil.mp (List.prefix_nil.mp hpref)).2
    exact main data []
  · intro hall
    unfold scanItems
    exact scanItemsAux_const limit find data hall []

/-! ### Lemmas about the fan-in merge -/

theorem map_getD_range {α : Type} (d : α) (l : List α) :
    (List.range l.length).map (fun i => l.getD i d) = l := by
  induction l with
  | nil => simp
  | cons a l ih =>
    rw [List.length_cons, List.range_succ_eq_map, List.map_cons, List.map_map]
    have hc : ((fun i => (a :: l).getD i d) ∘ Nat.succ) = fun i => l.getD i d := by
      funext i
      rfl
    rw [List.getD_cons_zero, hc, ih]

theorem mergeResults_range (outputs : List (List Str)) :
    mergeResults outputs (List.range outputs.length) = outputs.flatten := by
  unfold mergeResults
  rw [map_getD_range]

theorem mergeResults_perm (outputs : List (List Str)) (arrival : List Nat)
    (h : List.Perm arrival (List.range outputs.length)) :
    List.Perm (mergeResults outputs arrival) outputs.flatten := by
  have h1 := (h.map (fun i => outputs.getD i [])).flatten
  rw [map_getD_range] at h1
  exact h1

theorem mergeResults_nil_iff (outputs : List (List Str)) (arrival : List Nat)
    (h : List.Perm arrival (List.range outputs.length)) :
    mergeResults outputs arrival = [] ↔ ∀ out ∈ outputs, out = [] := by
  rw [← List.flatten_eq_nil_iff]
  constructor
  · intro hnil
    have hp := mergeResults_perm outputs arrival h
    rw [hnil] at hp
    exact hp.symm.eq_nil
  · intro hnil
    have hp := mergeResults_perm outputs arrival h
    rw [hnil] at hp
    exact hp.eq_nil

/-! ### Lemmas about `uniqueItems` -/

theorem mem_uniqueItemsAux (x : Str) :
    ∀ (l : List Str) (seen : List Str),
      x ∈ uniqueItemsAux seen l ↔ x ∈ l ∧ x ∉ seen := by
  intro l
  induction l with
  | nil =>
    intro seen
    simp [uniqueItemsAux]
  | cons a l ih =>
    intro seen
    by_cases ha : a ∈ seen
    · rw [show uniqueItemsAux seen (a :: l) = uniqueItemsAux seen l from by
        simp [uniqueItemsAux, ha]]
      rw [ih seen]
      constructor
      · rintro ⟨hx, hs⟩
        exact ⟨List.mem_cons_of_mem _ hx, hs⟩
      · rintro ⟨hx, hs⟩
        rcases List.mem_cons.mp hx with rfl | hx'
        · exact absurd ha hs
        · exact ⟨hx', hs⟩
    · rw [show uniqueItemsAux seen (a :: l) = a :: uniqueItemsAux (a :: seen) l from by
        simp [uniqueItemsAux, ha]]
      by_cases hxa : x = a
      · subst hxa
        simp [ha]
      · constructor
        · intro hx
          rcases List.mem_cons.mp hx with rfl | hx'
          · exact absurd rfl hxa
          · rcases (ih (a :: seen)).mp hx' with ⟨h1, h2⟩
            exact ⟨List.mem_cons_of_mem _ h1,
              fun hs => h2 (List.mem_cons_of_mem _ hs)⟩
        · rintro ⟨hx, hs⟩
          rcases List.mem_cons.mp hx with rfl | hx'
          · exact absurd rfl hxa
          · exact List.mem_cons_of_mem _ ((ih (a :: seen)).mpr
              ⟨hx', fun hmem => by
                rcases List.mem_cons.mp hmem with rfl | hseen
                · exact hxa rfl
                · exact hs hseen⟩)

theorem nodup_uniqueItemsAux :
    ∀ (l : List Str) (seen : List Str), (uniqueItemsAux seen l).Nodup := by
  intro l
  induction l with
  | nil =>
    intro seen
    simp [uniqueItemsAux]
  | cons a l ih =>
    intro seen
    by_cases ha : a ∈ seen
    · rw [show uniqueItemsAux seen (a :: l) = uniqueItemsAux seen l from by
        simp [uniqueItemsAux, ha]]
      exact ih seen
    · rw [show uniqueItemsAux seen (a :: l) = a :: uniqueItemsAux (a :: seen) l from by
        simp [uniqueItemsAux, ha]]
      refine List.nodup_cons.mpr ⟨?_, ih (a :: seen)⟩
      intro hmem
      exact ((mem_uniqueItemsAux a l (a :: seen)).mp hmem).2 (List.mem_cons_self _ _)

theorem uniqueItemsAux_idem :
    ∀ (l : List Str) (seen : List Str),
      uniqueItemsAux seen (uniqueItemsAux seen l) = uniqueItemsAux seen l := by
  intro l
  induction l with
  | nil =>
    intro seen
    simp [uniqueItemsAux]
  | cons a l ih =>
    intro seen
    by_cases ha : a ∈ seen
    · rw [show uniqueItemsAux seen (a :: l) = uniqueItemsAux seen l from by
        simp [uniqueItemsAux, ha]]
      exact ih seen
    · rw [show uniqueItemsAux seen (a :: l) = a :: uniqueItemsAux (a :: seen) l from by
        simp [uniqueItemsAux, ha]]
      rw [show uniqueItemsAux seen (a :: uniqueItemsAux (a :: seen) l) =
          a :: uniqueItemsAux (a :: seen) (uniqueItemsAux (a :: seen) l) from by
        simp [uniqueItemsAux, ha]]
      rw [ih (a :: seen)]

/-! ### Lemmas about `splitOnChar`, `addIndex` and `removeIdx` -/

theorem splitOnChar_sep_cons (sep : Char) (B : Str) :
    ∀ (A : Str), sep ∉ A → splitOnChar sep (A ++ sep :: B) = A :: splitOnChar sep B := by
  intro A
  induction A with
  | nil =>
    intro _
    simp [splitOnChar]
  | cons c A ih =>
    intro hA
    have hc : ¬c = sep := fun h => hA (h ▸ List.mem_cons_self _ _)
    have hA' : sep ∉ A := fun h => hA (List.mem_cons_of_mem _ h)
    rw [List.cons_append]
    simp only [splitOnChar]
    rw [if_neg hc, ih hA']
    simp

theorem splitOnChar_no_sep (sep : Char) :
    ∀ (B : Str), sep ∉ B → splitOnChar sep B = [B] := by
  intro B
  induction B with
  | nil =>
    intro _
    simp [splitOnChar]
  | cons c B ih =>
    intro hB
    have hc : ¬c = sep := fun h => hB (h ▸ List.mem_cons_self _ _)
    have hB' : sep ∉ B := fun h => hB (List.mem_cons_of_mem _ h)
    simp only [splitOnChar]
    rw [if_neg hc, ih hB']
    simp

theorem removeIdx_label (lab it : Str) (hlab : ' ' ∉ lab) (hit : ' ' ∉ it) :
    removeIdx true (lab ++ ' ' :: it) = it := by
  unfold removeIdx
  rw [if_neg (by simp), splitOnChar_sep_cons ' ' it lab hlab,
    splitOnChar_no_sep ' ' it hit]
  simp

theorem digitChar_lt_ten_ne_space : ∀ m : Nat, m < 10 → Nat.digitChar m ≠ ' ' := by
  decide

theorem toDigitsCore_ne_space :
    ∀ (fuel n : Nat) (ds : List Char), (∀ c ∈ ds, c ≠ ' ') →
      ∀ c ∈ Nat.toDigitsCore 10 fuel n ds, c ≠ ' ' := by
  intro fuel
  induction fuel with
  | zero =>
    intro n ds hds
    simpa [Nat.toDigitsCore] using hds
  | succ fuel ih =>
    intro n ds hds c hc
    have hcons : ∀ x ∈ Nat.digitChar (n % 10) :: ds, x ≠ ' ' := by
      intro x hx
      rcases List.mem_cons.mp hx with rfl | hx'
      · exact digitChar_lt_ten_ne_space (n % 10) (Nat.mod_lt n (by norm_num))
      · exact hds x hx'
    simp only [Nat.toDigitsCore] at hc
    by_cases hz : n / 10 = 0
    · rw [if_pos hz] at hc
      exact hcons c hc
    · rw [if_neg hz] at hc
      exact ih (n / 10) (Nat.digitChar (n % 10) :: ds) hcons c hc

theorem toDigits_ne_space (n : Nat) : ∀ c ∈ Nat.toDigits 10 n, c ≠ ' ' := by
  intro c hc
  exact toDigitsCore_ne_space (n + 1) n [] (by simp) c hc

theorem addIndexAux_strip :
    ∀ (items : List Str), (∀ it ∈ items, ' ' ∉ it) →
      ∀ i, (addIndexAux i items).map (removeIdx true) = items := by
  intro items
  induction items with
  | nil =>
    intro _ i
    simp [addIndexAux]
  | cons it rest ih =>
    intro h i
    rw [show addIndexAux i (it :: rest) =
        (('[' :: Nat.toDigits 10 i) ++ ']' :: ' ' :: it) :: addIndexAux (i + 1) rest from
      rfl]
    rw [List.map_cons, ih (fun x hx => h x (List.mem_cons_of_mem _ hx)) (i + 1)]
    congr 1
    have heq : ('[' :: Nat.toDigits 10 i) ++ ']' :: ' ' :: it =
        (('[' :: Nat.toDigits 10 i) ++ [']']) ++ ' ' :: it := by
      simp
    rw [heq]
    apply removeIdx_label
    · intro hmem
      rcases List.mem_append.mp hmem with hmem1 | hmem2
      · rcases List.mem_cons.mp hmem1 with hb | hd
        · exact absurd hb (by decide)
        · exact toDigits_ne_space i ' ' hd rfl
      · rcases List.mem_cons.mp hmem2 with hb | hb
        · exact absurd hb (by decide)
        · cases hb
    · exact h it (List.mem_cons_self _ _)

/-! ### Lemmas about `getURLsFrom` -/

theorem getURLsFrom_error_iff (limit : Int) (data : List Str)
    (finders : List (Str → List Str)) (arrival : List Nat)
    (h : List.Perm arrival (List.range finders.length)) :
    getURLsFrom limit data finders arrival = Except.error errNoURLFound ↔
      ∀ f ∈ finders, ∀ line ∈ data, f line = [] := by
  unfold getURLsFrom
  have hlen : (finders.map fun f =>
      scanItems (if limit = 0 then (data.length : Int) else limit) data f).length =
      finders.length := List.length_map _ _
  rw [← hlen] at h
  by_cases hres : mergeResults (finders.map fun f =>
      scanItems (if limit = 0 then (data.length : Int) else limit) data f) arrival = []
  · rw [if_pos hres]
    constructor
    · intro _ f hf line hline
      have hall := (mergeResults_nil_iff _ _ h).mp hres
      have := hall (scanItems (if limit = 0 then (data.length : Int) else limit) data f)
        (List.mem_map.mpr ⟨f, hf, rfl⟩)
      exact (scanItems_nil_iff _ _ _).mp this line hline
    · intro _
      rfl
  · rw [if_neg hres]
    constructor
    · intro hcon
      exact absurd hcon (by simp)
    · intro hall
      exfalso
      apply hres
      apply (mergeResults_nil_iff _ _ h).mpr
      intro out hout
      rcases List.mem_map.mp hout with ⟨f, hf, rfl⟩
      exact (scanItems_nil_iff _ _ _).mpr (fun line hline => hall f hf line hline)

theorem mergeResults_nil_outputs (arrival : List Nat) :
    mergeResults [] arrival = [] := by
  unfold mergeResults
  rw [List.flatten_eq_nil_iff]
  intro l hl
  rcases List.mem_map.mp hl with ⟨i, -, rfl⟩
  simp

/-! ### Lemmas about the dispatch in `main` -/

theorem handleItems_ne_error (cfg : Config) (raw : Except Unit Str) (items : List Str)
    (msg : String) : handleItems cfg raw items ≠ Outcome.errorExit msg := by
  unfold handleItems
  split
  · exact fun h => Outcome.noConfusion h
  · show (if selectURL raw = [] then Outcome.noSelection
        else handleURLAction cfg (selectURL raw)) ≠ Outcome.errorExit msg
    split
    · exact fun h => Outcome.noConfusion h
    · unfold handleURLAction
      split
      · exact fun h => Outcome.noConfusion h
      · split
        · exact fun h => Outcome.noConfusion h
        · exact fun h => Outcome.noConfusion h

theorem pipelineItems_error_iff (cfg : Config) (data : List Str) (arrival : List Nat)
    (msg : String) :
    pipelineItems cfg data arrival = Except.error msg ↔
      getURLsFrom cfg.limitFlag data (mainFinders cfg) arrival = Except.error msg := by
  unfold pipelineItems
  cases hg : getURLsFrom cfg.limitFlag data (mainFinders cfg) arrival with
  | error e => exact Iff.rfl
  | ok items => exact ⟨fun h => Except.noConfusion h, fun h => Except.noConfusion h⟩

theorem gourlMain_error_iff (cfg : Config) (raw : Except Unit Str) (data : List Str)
    (arrival : List Nat) (msg : String) :
    gourlMain cfg raw data arrival = Outcome.errorExit msg ↔
      pipelineItems cfg data arrival = Except.error msg := by
  unfold gourlMain
  cases hp : pipelineItems cfg data arrival with
  | error e =>
    constructor
    · intro h
      injection h with h'
      rw [h']
    · intro h
      injection h with h'
      rw [h']
  | ok items =>
    exact ⟨fun h => absurd h (handleItems_ne_error cfg raw items msg),
      fun h => Except.noConfusion h⟩

/-! ### Claim theorems -/

/-- Configuration with only the item limit set, to 1. -/
def cfgLimitOne : Config := ⟨false, false, false, false, false, 1, [], none⟩

/-- C1 counterexample: with limit 1 configured, one input line holding
two URLs makes the merged, deduplicated item list keep both entries —
the final list has 2 > 1 entries, so limiting does not truncate the
merged list after accumulation. -/
theorem limit_exceeded_after_dedup_cx :
    cfgLimitOne.limitFlag = 1 ∧
    pipelineItems cfgLimitOne [str "http://a.com http://b.com"] [0] =
      Except.ok [str "http://a.com", str "http://b.com"] ∧
    ¬([str "http://a.com", str "http://b.com"] : List Str).length ≤ 1 :=
  ⟨rfl, rfl, by decide⟩

/-- C1 (amended): with a limit N > 0, limiting happens inside each
matcher's scan at whole-line granularity: the matcher's output is a
prefix of its unlimited match list in unchanged order, it equals the
unlimited list when that list has at most N entries, and it reaches at
least N entries otherwise; no truncation is applied to the merged
deduplicated list, which can therefore exceed N. -/
theorem scanItems_limit_line_granular (limit : Int) (data : List Str)
    (find : Str → List Str) (h : 0 < limit) :
    scanItems limit data find <+: specAllMatches find data ∧
    (((specAllMatches find data).length : Int) ≤ limit →
      scanItems limit data find = specAllMatches find data) ∧
    (limit ≤ ((specAllMatches find data).length : Int) →
      limit ≤ ((scanItems limit data find).length : Int)) := by
  have hpref := scanItemsAux_pref limit find data []
  rw [List.nil_append] at hpref
  have hdisj := scanItemsAux_total_or_limit limit find data []
  rw [List.nil_append] at hdisj
  unfold scanItems
  refine ⟨hpref, ?_, ?_⟩
  · intro hle
    rcases hdisj with hl | hr
    · have hlen := hpref.length_le
      have : (scanItemsAux limit find [] data).length = (specAllMatches find data).length := by
        omega
      exact hpref.eq_of_length this
    · exact hr
  · intro hge
    rcases hdisj with hl | hr
    · exact hl
    · rw [hr]
      exact hge

/-- C1 witness: the amended statement instantiated at limit 1, the URL
matcher, and two concrete input lines. -/
theorem scanItems_limit_line_granular_w :
    (0 : Int) < 1 ∧
    (scanItems 1 [str "http://a.com http://b.com", str "http://c.com"] findURLs <+:
        specAllMatches findURLs [str "http://a.com http://b.com", str "http://c.com"] ∧
      (((specAllMatches findURLs
            [str "http://a.com http://b.com", str "http://c.com"]).length : Int) ≤ 1 →
        scanItems 1 [str "http://a.com http://b.com", str "http://c.com"] findURLs =
          specAllMatches findURLs [str "http://a.com http://b.com", str "http://c.com"]) ∧
      (1 ≤ ((specAllMatches findURLs
            [str "http://a.com http://b.com", str "http://c.com"]).length : Int) →
        1 ≤ ((scanItems 1 [str "http://a.com http://b.com", str "http://c.com"]
            findURLs).length : Int))) :=
  ⟨by decide, scanItems_limit_line_granular 1
    [str "http://a.com http://b.com", str "http://c.com"] findURLs (by decide)⟩

/-- C2: with the limit flag at its default 0, `getURLsFrom` replaces 0
by the number of buffered lines, so on two lines whose first line holds
two URLs the scan breaks before the second line: only two of the three
matches are returned, although the unlimited match list has all
three — limit 0 is not unbounded. -/
theorem limit_zero_drops_matches :
    getURLsFrom 0 [str "http://a.com http://b.com", str "http://c.com"] [findURLs] [0] =
      Except.ok [str "http://a.com", str "http://b.com"] ∧
    specAllMatches findURLs [str "http://a.com http://b.com", str "http://c.com"] =
      [str "http://a.com", str "http://b.com", str "http://c.com"] :=
  ⟨rfl, rfl⟩

/-- C3 counterexample: with the URL matcher and the email matcher both
registered, the arrival order [1, 0] is a valid schedule of the two
goroutines, and under it the merged list starts with the email match —
it differs from the matcher-registration-order concatenation, so the
merged list does not always equal that concatenation. -/
theorem merge_arrival_order_cx :
    List.Perm [1, 0] (List.range 2) ∧
    getURLsFrom 0 [str "http://x.com a@b.com"] [findURLs, findEmails] [1, 0] =
      Except.ok [str "mailto:a@b.com", str "http://x.com"] ∧
    getURLsFrom 0 [str "http://x.com a@b.com"] [findURLs, findEmails] [0, 1] =
      Except.ok [str "http://x.com", str "mailto:a@b.com"] ∧
    ([str "mailto:a@b.com", str "http://x.com"] : List Str) ≠
      [str "http://x.com", str "mailto:a@b.com"] :=
  ⟨by decide, rfl, rfl, by decide⟩

/-- C3 (amended): the coordinator's merged list is the concatenation of
the per-matcher outputs (each in line order) in channel-arrival order;
for every arrival order that is a permutation of the registration
positions the merged list is a permutation of the registration-order
concatenation, and the registration-order arrival yields exactly that
concatenation — but registration order itself is not guaranteed. -/
theorem merge_perm_of_registration (limit : Int) (data : List Str)
    (finders : List (Str → List Str)) (arrival : List Nat)
    (h : List.Perm arrival (List.range finders.length)) :
    List.Perm (mergeResults (finders.map fun f => scanItems limit data f) arrival)
      ((finders.map fun f => scanItems limit data f).flatten) ∧
    mergeResults (finders.map fun f => scanItems limit data f)
        (List.range finders.length) =
      (finders.map fun f => scanItems limit data f).flatten := by
  have hlen : (finders.map fun f => scanItems limit data f).length = finders.length :=
    List.length_map _ _
  constructor
  · exact mergeResults_perm _ _ (by rw [hlen]; exact h)
  · rw [show List.range finders.length =
        List.range (finders.map fun f => scanItems limit data f).length from by
      rw [hlen]]
    exact mergeResults_range _

/-- C3 witness: the amended statement instantiated at the two real
matchers, a concrete input line, and the swapped arrival order. -/
theorem merge_perm_of_registration_w :
    List.Perm [1, 0]
      (List.range ([findURLs, findEmails] : List (Str → List Str)).length) ∧
    (List.Perm
        (mergeResults (([findURLs, findEmails] : List (Str → List Str)).map fun f =>
          scanItems 1 [str "http://x.com a@b.com"] f) [1, 0])
        ((([findURLs, findEmails] : List (Str → List Str)).map fun f =>
          scanItems 1 [str "http://x.com a@b.com"] f).flatten) ∧
      mergeResults (([findURLs, findEmails] : List (Str → List Str)).map fun f =>
          scanItems 1 [str "http://x.com a@b.com"] f)
          (List.range ([findURLs, findEmails] : List (Str → List Str)).length) =
        (([findURLs, findEmails] : List (Str → List Str)).map fun f =>
          scanItems 1 [str "http://x.com a@b.com"] f).flatten) :=
  ⟨by decide, merge_perm_of_registration 1 [str "http://x.com a@b.com"]
    [findURLs, findEmails] [1, 0] (by decide)⟩

/-- C4: for every arrival schedule, the coordinator returns the
`no urls found` error exactly when every active matcher produces zero
matches on every buffered line; at the `main` level the run ends in the
error exit (status 1) under exactly the same condition, and otherwise
no such error is produced. -/
theorem no_items_error_iff :
    (∀ (limit : Int) (data : List Str) (finders : List (Str → List Str))
        (arrival : List Nat),
      List.Perm arrival (List.range finders.length) →
      (getURLsFrom limit data finders arrival = Except.error errNoURLFound ↔
        ∀ f ∈ finders, ∀ line ∈ data, f line = [])) ∧
    (∀ (cfg : Config) (raw : Except Unit Str) (data : List Str) (arrival : List Nat),
      List.Perm arrival (List.range (mainFinders cfg).length) →
      (gourlMain cfg raw data arrival = Outcome.errorExit errNoURLFound ↔
        ∀ f ∈ mainFinders cfg, ∀ line ∈ data, f line = [])) ∧
    (Outcome.errorExit errNoURLFound).exitCode = 1 := by
  refine ⟨fun limit data finders arrival h => getURLsFrom_error_iff limit data finders arrival h,
    fun cfg raw data arrival h => ?_, rfl⟩
  exact (gourlMain_error_iff cfg raw data arrival errNoURLFound).trans
    ((pipelineItems_error_iff cfg data arrival errNoURLFound).trans
      (getURLsFrom_error_iff cfg.limitFlag data (mainFinders cfg) arrival h))

/-- C4 witness: a matchless input line with the URL matcher yields the
error, by the first component of the theorem. -/
theorem no_items_error_iff_w :
    List.Perm [0] (List.range ([findURLs] : List (Str → List Str)).length) ∧
    (getURLsFrom 0 [str "hello"] [findURLs] [0] = Except.error errNoURLFound ↔
      ∀ f ∈ ([findURLs] : List (Str → List Str)), ∀ line ∈ [str "hello"], f line = []) :=
  ⟨by decide, no_items_error_iff.1 0 [str "hello"] [findURLs] [0] (by decide)⟩

/-- Configuration with email extraction enabled and everything else at
its default. -/
def cfgEmailDedup : Config := ⟨false, false, false, true, false, 0, [], none⟩

/-- C5 counterexample: on the line `www.a@b.com` the URL matcher and the
email matcher match exactly the same substring, but the email matcher
prepends `mailto:`; deduplication compares the prefixed item strings,
so both items survive (under either arrival order) although their
underlying matched text is equal. -/
theorem dedup_prefixed_distinct_cx :
    pipelineItems cfgEmailDedup [str "www.a@b.com"] [0, 1] =
      Except.ok [str "www.a@b.com", str "mailto:www.a@b.com"] ∧
    pipelineItems cfgEmailDedup [str "www.a@b.com"] [1, 0] =
      Except.ok [str "mailto:www.a@b.com", str "www.a@b.com"] ∧
    (uniqueItems [str "www.a@b.com", str "mailto:www.a@b.com"]).length = 2 :=
  ⟨rfl, rfl, by decide⟩

/-- C5 (amended): deduplication uses exact string equality on the final
item strings, prefix included (and is applied before indexing): the
deduplicated list has no duplicate item strings and contains exactly
the item strings of the input. -/
theorem uniqueItems_exact_equality (items : List Str) :
    (uniqueItems items).Nodup ∧ ∀ x : Str, x ∈ uniqueItems items ↔ x ∈ items := by
  constructor
  · exact nodup_uniqueItemsAux items []
  · intro x
    unfold uniqueItems
    rw [mem_uniqueItemsAux x items []]
    simp

/-- C6: the merge-and-dedup step is idempotent — applying `uniqueItems`
to its own output returns the output unchanged. -/
theorem uniqueItems_idempotent (l : List Str) :
    uniqueItems (uniqueItems l) = uniqueItems l := by
  unfold uniqueItems
  exact uniqueItemsAux_idem l []

/-- C7 counterexample: the item `B C` contains no index-bracket syntax,
yet stripping the index label from its indexed form `[2] B C` returns
`B`, not `B C` — `removeIdx` keeps only the second space-separated
field, so bracket-freedom is not the right side condition. -/
theorem removeIdx_space_cx :
    addIndex [str "A", str "B C"] = [str "[1] A", str "[2] B C"] ∧
    removeIdx true (str "[2] B C") = str "B" ∧
    str "B" ≠ str "B C" ∧
    '[' ∉ str "B C" ∧ ']' ∉ str "B C" :=
  ⟨by decide, by decide, by decide, by decide, by decide⟩

/-- C7 (amended): for items that contain no space character — which is
true of every matcher-produced item, since matches are cut at the first
space — stripping the index label from the indexed form recovers the
original item; in particular stripping `[2] B` yields `B`. -/
theorem removeIdx_left_inverse_addIndex (items : List Str)
    (h : ∀ it ∈ items, ' ' ∉ it) :
    (addIndex items).map (removeIdx true) = items := by
  unfold addIndex
  exact addIndexAux_strip items h 1

/-- C7 witness: stripping the indexed forms `[1] A` and `[2] B`
recovers `A` and `B`. -/
theorem removeIdx_left_inverse_addIndex_w :
    (∀ it ∈ ([str "A", str "B"] : List Str), ' ' ∉ it) ∧
    (addIndex [str "A", str "B"]).map (removeIdx true) = [str "A", str "B"] :=
  ⟨by decide, removeIdx_left_inverse_addIndex [str "A", str "B"] (by decide)⟩

/-- C8: a chooser failure (covering a non-zero exit) and an output that
trims to nothing both yield the empty selection, and whenever the
selection is empty while the menu path is active (a copy flag, an open
flag, or extra menu arguments), the run ends with no action, nothing on
standard output, and exit status 0 — never an error. -/
theorem chooser_cancel_quiet (cfg : Config) (items : List Str) (out : Str)
    (raw : Except Unit Str) (hsel : selectURL raw = [])
    (hmenu : cfg.copyFlag = true ∨ cfg.openFlag = true ∨ cfg.menuArgsFlag ≠ []) :
    selectURL (Except.error ()) = [] ∧
    (trimChar '\n' (trimRightChar '\n' out) = [] → selectURL (Except.ok out) = []) ∧
    handleItems cfg raw items = Outcome.noSelection ∧
    (handleItems cfg raw items).exitCode = 0 ∧
    (handleItems cfg raw items).stdoutLines = [] := by
  have hni : ¬(cfg.copyFlag = false ∧ cfg.openFlag = false ∧ cfg.menuArgsFlag = []) := by
    rintro ⟨h1, h2, h3⟩
    rcases hmenu with hm | hm | hm
    · rw [h1] at hm
      cases hm
    · rw [h2] at hm
      cases hm
    · exact hm h3
  have hhi : handleItems cfg raw items = Outcome.noSelection := by
    unfold handleItems
    rw [if_neg hni]
    show (if selectURL raw = [] then Outcome.noSelection
        else handleURLAction cfg (selectURL raw)) = Outcome.noSelection
    rw [if_pos hsel]
  refine ⟨rfl, ?_, hhi, by rw [hhi]; rfl, by rw [hhi]; rfl⟩

  intro htrim
  show (if trimChar '\n' (trimRightChar '\n' out) = [] then ([] : Str)
      else trimChar '\n' (trimRightChar '\n' out)) = []
  rw [if_pos htrim]

/-- C8 witness: the theorem instantiated with extra menu arguments and
a chooser that failed (non-zero exit). -/
theorem chooser_cancel_quiet_w :
    selectURL (Except.error ()) = [] ∧
    (trimChar '\n' (trimRightChar '\n' (str "\n")) = [] →
      selectURL (Except.ok (str "\n")) = []) ∧
    handleItems ⟨false, false, false, false, false, 0, str "-b", none⟩
        (Except.error ()) [str "http://a.com"] = Outcome.noSelection ∧
    (handleItems ⟨false, false, false, false, false, 0, str "-b", none⟩
        (Except.error ()) [str "http://a.com"]).exitCode = 0 ∧
    (handleItems ⟨false, false, false, false, false, 0, str "-b", none⟩
        (Except.error ()) [str "http://a.com"]).stdoutLines = [] :=
  chooser_cancel_quiet ⟨false, false, false, false, false, 0, str "-b", none⟩
    [str "http://a.com"] (str "\n") (Except.error ()) rfl
    (Or.inr (Or.inr (by decide)))

/-- Configuration with only extra menu arguments set, so the menu runs
but neither the copy action nor the open action is configured. -/
def cfgMenuOnly : Config := ⟨false, false, false, false, false, 0, str "-b", none⟩

/-- C9: with a selection made and neither copy nor open configured (the
menu was reached through extra menu arguments), `handleURLAction` finds
no entry under the key `true` in its flag-keyed action map and simply
returns — the selected item is not printed: the run ends with nothing
on standard output and exit status 0. -/
theorem menu_only_selection_silent :
    gourlMain cfgMenuOnly (Except.ok (str "http://a.com")) [str "http://a.com"] [0] =
      Outcome.didNothing ∧
    Outcome.didNothing.stdoutLines = ([] : List Str) ∧
    Outcome.didNothing.exitCode = 0 :=
  ⟨rfl, rfl, rfl⟩

/-- C10: when the no-urls flag is set, email extraction is off and no
custom regex is supplied, the finder list is empty, so for every input
and every schedule the run ends in the `no urls found` error exit with
status 1. -/
theorem no_matchers_error_exit (cfg : Config) (raw : Except Unit Str) (data : List Str)
    (arrival : List Nat) (hn : cfg.noUrlsFlag = true) (he : cfg.emailFlag = false)
    (hc : cfg.customRegexMatcher = none) :
    gourlMain cfg raw data arrival = Outcome.errorExit errNoURLFound ∧
    (gourlMain cfg raw data arrival).exitCode = 1 := by
  have hf : mainFinders cfg = [] := by
    unfold mainFinders
    rw [hc, hn, he]
    simp
  have herr : getURLsFrom cfg.limitFlag data (mainFinders cfg) arrival =
      Except.error errNoURLFound := by
    rw [hf]
    simp [getURLsFrom, mergeResults_nil_outputs]
  have h2 := (pipelineItems_error_iff cfg data arrival errNoURLFound).mpr herr
  have h3 := (gourlMain_error_iff cfg raw data arrival errNoURLFound).mpr h2
  refine ⟨h3, by rw [h3]; rfl⟩

/-- Configuration with only the no-urls flag set. -/
def cfgNoUrls : Config := ⟨false, false, true, false, false, 0, [], none⟩

/-- C10 witness: the theorem instantiated on an input line that does
contain a URL and an email address. -/
theorem no_matchers_error_exit_w :
    cfgNoUrls.noUrlsFlag = true ∧ cfgNoUrls.emailFlag = false ∧
    cfgNoUrls.customRegexMatcher = none ∧
    (gourlMain cfgNoUrls (Except.error ()) [str "http://a.com a@b.com"] [] =
        Outcome.errorExit errNoURLFound ∧
      (gourlMain cfgNoUrls (Except.error ()) [str "http://a.com a@b.com"] []).exitCode = 1) :=
  ⟨rfl, rfl, rfl, no_matchers_error_exit cfgNoUrls (Except.error ())
    [str "http://a.com a@b.com"] [] rfl rfl rfl⟩
